import Mathlib

/-!
Verification development for the process execution and lifecycle core of the
OddLauncher repository (src-tauri).  The Rust sources are shallowly embedded as
executable Lean definitions:

  * `src/src-tauri/src/commands/process.rs`  (path normalizer, command
    composer, process supervisor: start / stop / kill_all),
  * `src/src-tauri/src/commands/terminal.rs` (per-shell strategy table), and
  * `src/src-tauri/src/commands/browser.rs`  (readiness poller).

Platform-conditional compilation (`cfg!(target_os = "windows")`, `#[cfg(unix)]`)
is modelled by an explicit `win : Bool` parameter.  External effects (the
filesystem, process spawning, signal delivery, HTTP probes, the browser opener)
are modelled as oracle records passed to the embedded functions; registry
updates and emitted UI events are returned explicitly.  Rust `String` values
are modelled by Lean `String` where only construction matters and by
`List Char` where the character-level algorithms (trimming, splitting,
substring replacement) must be reasoned about.
-/

namespace OddLauncher

/-! ## Character-level string utilities

Models of the Rust `str` primitives used by the sources: `trim`,
`lines`-style splitting, `split_whitespace`, `contains`, and
`str::replace(pat, "")`. -/

/-- Model of the Rust `char::is_whitespace` predicate: membership of the
code point in the Unicode White_Space set. -/
def isRustWhitespace (c : Char) : Bool :=
  [0x9, 0xA, 0xB, 0xC, 0xD, 0x20, 0x85, 0xA0, 0x1680,
   0x2000, 0x2001, 0x2002, 0x2003, 0x2004, 0x2005, 0x2006, 0x2007,
   0x2008, 0x2009, 0x200A, 0x2028, 0x2029, 0x202F, 0x205F, 0x3000].contains c.toNat

/-- Model of Rust `str::trim`: drop leading and trailing whitespace. -/
def trimChars (l : List Char) : List Char :=
  ((l.dropWhile isRustWhitespace).reverse.dropWhile isRustWhitespace).reverse

/-- Split a character list at every separator recognised by `p`; consecutive
separators yield empty pieces.  Models Rust `str::split` with a char set. -/
def splitOnPred (p : Char → Bool) : List Char → List (List Char)
  | [] => [[]]
  | c :: rest =>
    match splitOnPred p rest with
    | [] => [[]]
    | q :: qs => if p c then [] :: q :: qs else (c :: q) :: qs

/-- Model of Rust `str::split_whitespace`: split on whitespace and drop the
empty pieces. -/
def splitWhitespaceChars (l : List Char) : List (List Char) :=
  (splitOnPred isRustWhitespace l).filter (fun piece => !piece.isEmpty)

/-- Model of Rust `str::contains(pat)` for a string pattern. -/
def containsSub (pat : List Char) : List Char → Bool
  | [] => pat.isEmpty
  | c :: rest => pat.isPrefixOf (c :: rest) || containsSub pat rest

/-- One fuelled pass of `str::replace(pat, "")`: delete every non-overlapping
occurrence of `pat`, scanning left to right.  The fuel is an upper bound on
the number of characters still to be consumed; each step consumes at least
one character, so fuel `s.length` suffices (see `removeAllSub`). -/
def removeOcc (pat : List Char) : Nat → List Char → List Char
  | _, [] => []
  | 0, s => s
  | fuel + 1, c :: rest =>
    if pat.isPrefixOf (c :: rest) then
      removeOcc pat fuel (rest.drop (pat.length - 1))
    else
      c :: removeOcc pat fuel rest

/-- Model of Rust `str::replace(pat, "")` for a non-empty pattern. -/
def removeAllSub (pat s : List Char) : List Char :=
  removeOcc pat s.length s

/-- Join a list of strings with a newline between consecutive elements:
model of Rust `Vec::join("\n")`. -/
def joinNL : List String → String
  | [] => ""
  | [l] => l
  | l :: ls => l ++ "\n" ++ joinNL ls

/-- Join character-list pieces with a slash between consecutive elements:
model of Rust `Vec::join("/")`. -/
def joinSlash : List (List Char) → List Char
  | [] => []
  | [p] => p
  | p :: ps => p ++ '/' :: joinSlash ps

/-! ## Path/Environment Normalizer (`platform_utils` in process.rs) -/

/-- The characters of the UNC prefix `\\wsl.localhost\`. -/
def wslPrefixBack : List Char := "\\\\wsl.localhost\\".data

/-- The characters of the forward-slash prefix `//wsl.localhost/`. -/
def wslPrefixFwd : List Char := "//wsl.localhost/".data

/-- `convert_wsl_network_path` from process.rs, on character lists: strip the
two WSL network prefixes (every occurrence, as Rust `replace` does), split on
both separators, require at least two pieces, and rebuild an absolute POSIX
path from the pieces after the distro name. -/
def convert_wsl_network_path (p : List Char) : Except (List Char) (List Char) :=
  let cleaned := removeAllSub wslPrefixFwd (removeAllSub wslPrefixBack p)
  let parts := splitOnPred (fun c => c = '\\' || c = '/') cleaned
  if parts.length < 2 then
    .error ("Invalid WSL path format: ".data ++ p)
  else
    .ok ('/' :: joinSlash (parts.drop 1))

/-- `normalize_path` from process.rs, on character lists.  `win` models
`cfg!(target_os = "windows")`. -/
def normalizeChars (win : Bool) (p : List Char) : Except (List Char) (List Char) :=
  if wslPrefixBack.isPrefixOf p || wslPrefixFwd.isPrefixOf p then
    convert_wsl_network_path p
  else if win then
    if p.contains '/' && !p.contains '\\' && !(List.isPrefixOf ['/'] p) then
      .ok (p.map (fun c => if c = '/' then '\\' else c))
    else
      .ok p
  else
    if p.contains '\\' then
      .ok (p.map (fun c => if c = '\\' then '/' else c))
    else
      .ok p

/-- String-level wrapper for `normalize_path`. -/
def normalize_path (win : Bool) (p : String) : Except String String :=
  match normalizeChars win p.data with
  | .ok r => .ok (String.mk r)
  | .error e => .error (String.mk e)

/-! ## Per-shell strategy table (terminal.rs) -/

/-- Rewrite a backslash to a forward slash, keep every other character. -/
def backToFwd (c : Char) : Char := if c = '\\' then '/' else c

/-- `convert_to_unix_path` from terminal.rs: Git-Bash drive form,
`C:\x` becomes `/c/x`; otherwise just rewrite backslashes. -/
def convert_to_unix_path (p : String) : String :=
  match p.data with
  | d :: ':' :: c :: rest =>
    String.mk ('/' :: d.toLower :: (c :: rest).map backToFwd)
  | other => String.mk (other.map backToFwd)

/-- `convert_to_wsl_path` from terminal.rs: WSL drive form,
`C:\x` becomes `/mnt/c/x`; otherwise just rewrite backslashes. -/
def convert_to_wsl_path (p : String) : String :=
  match p.data with
  | d :: ':' :: c :: rest =>
    String.mk ("/mnt/".data ++ d.toLower :: (c :: rest).map backToFwd)
  | other => String.mk (other.map backToFwd)

/-- The fixed bootstrap header of the WSL strategy script (terminal.rs,
`get_terminal_command`, arm `"wsl"`): PATH sanitising, standard paths,
shell-init files, version managers. -/
def wslStrategyHeader : List String :=
  ["#!/bin/bash",
   "set -e",
   "",
   "# Clean PATH to avoid Windows executable conflicts",
   "export PATH=\"$(echo $PATH | tr \x27:\x27 \x27\\n\x27 | grep -v \x27^/mnt/c\x27 | tr \x27\\n\x27 \x27:\x27 | sed \x27s/:$//\x27)\"",
   "",
   "# Add standard Linux paths",
   "export PATH=\"/usr/local/bin:/usr/bin:/bin:/usr/local/sbin:/usr/sbin:/sbin:$PATH\"",
   "",
   "# Add user bin directories",
   "[ -d \"$HOME/.local/bin\" ] && export PATH=\"$HOME/.local/bin:$PATH\"",
   "[ -d \"$HOME/bin\" ] && export PATH=\"$HOME/bin:$PATH\"",
   "",
   "# Initialize shell environment",
   "source /etc/profile 2>/dev/null || true",
   "source ~/.profile 2>/dev/null || true",
   "source ~/.bashrc 2>/dev/null || true",
   "",
   "# Initialize version managers",
   "if [ -f ~/.nvm/nvm.sh ]; then source ~/.nvm/nvm.sh; fi",
   "if command -v rbenv >/dev/null 2>&1; then eval \"$(rbenv init -)\"; fi",
   ""]

/-- `get_terminal_command` from terminal.rs: the closed per-shell strategy
table.  The Rust `match` on the selector string is rendered as a chain of
string comparisons; the final arm covers `"bash" | "zsh" | "fish" | "sh" | _`
and maps every unrecognised selector to the bash strategy. -/
def get_terminal_command (terminal_type user_commands : String)
    (working_dir : Option String) : List String :=
  if terminal_type = "cmd" then
    ["cmd.exe", "/c",
     match working_dir with
     | some dir => "cd /d \"" ++ dir ++ "\" && " ++ user_commands
     | none => user_commands]
  else if terminal_type = "powershell" then
    ["powershell.exe", "-Command",
     (match working_dir with
      | some dir => "Set-Location -Path \x27" ++ dir ++ "\x27; "
      | none => "") ++ user_commands]
  else if terminal_type = "pwsh" then
    ["pwsh.exe", "-Command",
     (match working_dir with
      | some dir => "Set-Location -Path \x27" ++ dir ++ "\x27; "
      | none => "") ++ user_commands]
  else if terminal_type = "gitbash" then
    ["bash.exe", "-c",
     (match working_dir with
      | some dir => "cd \x27" ++ convert_to_unix_path dir ++ "\x27 && "
      | none => "") ++ user_commands]
  else if terminal_type = "wsl" then
    let script_lines :=
      wslStrategyHeader
      ++ (match working_dir with
          | some dir => ["cd \x27" ++ convert_to_wsl_path dir ++ "\x27", ""]
          | none => [])
      ++ [user_commands]
    ["wsl.exe", "bash", "-c", joinNL script_lines]
  else
    let shell :=
      if terminal_type = "zsh" then "zsh"
      else if terminal_type = "fish" then "fish"
      else if terminal_type = "sh" then "sh"
      else "bash"
    [shell, "-c",
     (match working_dir with
      | some dir => "cd \x27" ++ dir ++ "\x27 && "
      | none => "") ++ user_commands]

/-! ## Command Composer (process.rs) -/

/-- The trimmed, non-empty command lines of a raw multi-line command string
(process.rs, `prepare_multi_command_execution`, lines 177-181). -/
def cmdsOf (launch_commands : String) : List String :=
  ((((splitOnPred (fun c => c = '\n')) launch_commands.data).map trimChars).filter
    (fun l => !l.isEmpty)).map String.mk

/-- `should_use_wsl` from process.rs: a command is redirected through WSL on
Windows only when the working directory indicates WSL usage. -/
def should_use_wsl (working_dir : Option String) : Bool :=
  match working_dir with
  | some dir => List.isPrefixOf ['/'] dir.data || containsSub "wsl.localhost".data dir.data
  | none => false

/-- `prepare_wsl_command` from process.rs: wrap a single command for
execution through `wsl.exe`, adding `--cd` when the normalized working
directory is absolute-POSIX. -/
def prepare_wsl_command (win : Bool) (program : String) (args : List String)
    (working_dir : Option String) : Except String (String × List String) :=
  match working_dir with
  | some dir =>
    match normalize_path win dir with
    | .error e => .error e
    | .ok ndir =>
      let cdArgs := if List.isPrefixOf ['/'] ndir.data then ["--cd", ndir] else []
      .ok ("wsl.exe", cdArgs ++ program :: args)
  | none => .ok ("wsl.exe", program :: args)

/-- `prepare_command` from `platform_utils` in process.rs: tokenize a single
command by whitespace; the first token is the program, the rest are literal
arguments; on Windows a WSL-looking working directory redirects through
`wsl.exe`. -/
def prepare_command (win : Bool) (command : String)
    (working_dir : Option String) : Except String (String × List String) :=
  match splitWhitespaceChars (trimChars command.data) with
  | [] => .error "Command cannot be empty"
  | prog :: rest =>
    let program := String.mk prog
    let args := rest.map String.mk
    if win && should_use_wsl working_dir then
      prepare_wsl_command win program args working_dir
    else
      .ok (program, args)

/-- The trace line emitted before the `i`-th (0-based) command in generated
scripts: `echo "OddLauncher: Executing command {i+1}: {command}"`. -/
def traceLine (i : Nat) (c : String) : String :=
  "echo \"OddLauncher: Executing command " ++ toString (i + 1) ++ ": " ++ c ++ "\""

/-- first word of a command, for version-manager detection
(process.rs, lines 322-330). -/
def firstWordOf (cmd : String) : String :=
  String.mk ((splitWhitespaceChars (trimChars cmd.data)).headD [])

/-- Does any command require nvm initialisation? -/
def needsNvm (commands : List String) : Bool :=
  commands.any (fun cmd => firstWordOf cmd = "nvm" || containsSub "nvm ".data cmd.data)

/-- Does any command require rbenv initialisation? -/
def needsRbenv (commands : List String) : Bool :=
  commands.any (fun cmd => firstWordOf cmd = "rbenv" || containsSub "rbenv ".data cmd.data)

/-- nvm initialisation block of the generated POSIX script. -/
def nvmInitBlock : List String :=
  ["# Initialize nvm if available",
   "if [ -f ~/.nvm/nvm.sh ]; then",
   "  source ~/.nvm/nvm.sh",
   "elif [ -f /usr/local/share/nvm/nvm.sh ]; then",
   "  source /usr/local/share/nvm/nvm.sh",
   "elif [ -f /opt/homebrew/opt/nvm/nvm.sh ]; then",
   "  source /opt/homebrew/opt/nvm/nvm.sh",
   "fi"]

/-- rbenv initialisation block of the generated POSIX script. -/
def rbenvInitBlock : List String :=
  ["# Initialize rbenv if available",
   "if command -v rbenv >/dev/null 2>&1; then",
   "  eval \"$(rbenv init -)\"",
   "fi"]

/-- The command section of the generated POSIX script: for each command, in
input order, one trace line immediately followed by the command itself
(process.rs, lines 361-364). -/
def unixCommandBlock (commands : List String) : List String :=
  commands.enum.flatMap (fun p => [traceLine p.1 p.2, p.2])

/-- `prepare_unix_multi_command` from process.rs: generate an inline bash
script for two or more command lines on a POSIX host. -/
def prepare_unix_multi_command (win : Bool) (commands : List String)
    (working_dir : Option String) : Except String (String × List String) :=
  match (match working_dir with
         | some dir =>
           (normalize_path win dir).map (fun (n : String) =>
             ["echo \"OddLauncher: Changing to working directory: " ++ n ++ "\"",
              "cd \x27" ++ n ++ "\x27"])
         | none => .ok []) with
  | .error e => .error e
  | .ok dirBlock =>
    let script_lines :=
      ["#!/bin/bash", "set -e", "echo \"OddLauncher: Starting app process...\""]
      ++ (if needsNvm commands then nvmInitBlock else [])
      ++ (if needsRbenv commands then rbenvInitBlock else [])
      ++ dirBlock
      ++ unixCommandBlock commands
    .ok ("bash", ["-c", joinNL script_lines])

/-- The fixed clean-environment header of the WSL bash script generated by
`prepare_windows_multi_command` (process.rs, lines 216-260). -/
def windowsWslScriptHeader : List String :=
  ["#!/bin/bash",
   "set -e",
   "",
   "# Clean PATH to avoid Windows executable conflicts",
   "# Remove Windows paths (/mnt/c/...) that cause WSL to use Windows tools instead of Linux versions",
   "export PATH=\"$(echo $PATH | tr \x27:\x27 \x27\\n\x27 | grep -v \x27^/mnt/c\x27 | tr \x27\\n\x27 \x27:\x27 | sed \x27s/:$//\x27)\"",
   "",
   "# Add standard Linux paths to ensure we have essential tools",
   "export PATH=\"/usr/local/bin:/usr/bin:/bin:/usr/local/sbin:/usr/sbin:/sbin:$PATH\"",
   "",
   "# Add user bin directories if they exist",
   "[ -d \"$HOME/.local/bin\" ] && export PATH=\"$HOME/.local/bin:$PATH\"",
   "[ -d \"$HOME/bin\" ] && export PATH=\"$HOME/bin:$PATH\"",
   "",
   "# Initialize shell environment",
   "source /etc/profile 2>/dev/null || true",
   "source ~/.profile 2>/dev/null || true",
   "source ~/.bashrc 2>/dev/null || true",
   "",
   "# Initialize common version managers",
   "# nvm",
   "if [ -f ~/.nvm/nvm.sh ]; then",
   "    source ~/.nvm/nvm.sh",
   "elif [ -f /usr/local/share/nvm/nvm.sh ]; then",
   "    source /usr/local/share/nvm/nvm.sh",
   "fi",
   "",
   "# rbenv",
   "if command -v rbenv >/dev/null 2>&1; then",
   "    eval \"$(rbenv init -)\"",
   "fi",
   "",
   "# Debug: Show which executables we\x27ll use",
   "echo \"OddLauncher: Using clean WSL environment\"",
   "echo \"OddLauncher: PATH=$PATH\"",
   "for tool in node npm yarn; do",
   "    if command -v $tool >/dev/null 2>&1; then",
   "        echo \"OddLauncher: Found $tool at $(which $tool)\"",
   "    else",
   "        echo \"OddLauncher: Tool $tool not found in PATH\"",
   "    fi",
   "done",
   ""]

/-- Command section of the generated WSL bash script on Windows: trace line,
command, and a blank separator line between consecutive commands
(process.rs, lines 273-279).  `i` is the 0-based index of the first command. -/
def windowsWslCommandBlock : List String → Nat → List String
  | [], _ => []
  | [c], i => [traceLine i c, c]
  | c :: cs, i => [traceLine i c, c, ""] ++ windowsWslCommandBlock cs (i + 1)

/-- `prepare_windows_multi_command` from process.rs: on a Windows host,
either a WSL bash script (when the working directory indicates WSL) or a
`cmd.exe` batch script with explicit per-line errorlevel propagation. -/
def prepare_windows_multi_command (win : Bool) (commands : List String)
    (working_dir : Option String) : Except String (String × List String) :=
  let use_wsl := should_use_wsl working_dir
  if use_wsl then
    match (match working_dir with
           | some dir =>
             (normalize_path win dir).map (fun (n : String) =>
               if List.isPrefixOf ['/'] n.data then
                 ["echo \"OddLauncher: Changing to directory: " ++ n ++ "\"",
                  "cd \x27" ++ n ++ "\x27", ""]
               else [])
           | none => .ok []) with
    | .error e => .error e
    | .ok dirBlock =>
      let script_lines :=
        windowsWslScriptHeader ++ dirBlock ++ windowsWslCommandBlock commands 0
      .ok ("wsl.exe", ["bash", "-c", joinNL script_lines])
  else
    match (match working_dir with
           | some dir =>
             (normalize_path win dir).map (fun (n : String) => ["cd /d \"" ++ n ++ "\""])
           | none => .ok []) with
    | .error e => .error e
    | .ok dirBlock =>
      let script_lines :=
        ["@echo off", "setlocal enabledelayedexpansion"]
        ++ dirBlock
        ++ commands.flatMap (fun c => [c, "if !errorlevel! neq 0 exit /b !errorlevel!"])
      .ok ("cmd.exe", ["/c", joinNL script_lines])

/-- The legacy (no-selector) composition path of
`prepare_multi_command_execution`: split into trimmed non-empty lines,
reject zero lines, reuse the single-command resolver for one line, and
generate a platform shell script for more than one line. -/
def legacyPrepare (win : Bool) (launch_commands : String)
    (working_dir : Option String) : Except String (String × List String) :=
  match cmdsOf launch_commands with
  | [] => .error "No valid commands found"
  | [c] => prepare_command win c working_dir
  | c1 :: c2 :: cs =>
    if win then prepare_windows_multi_command win (c1 :: c2 :: cs) working_dir
    else prepare_unix_multi_command win (c1 :: c2 :: cs) working_dir

/-- `prepare_multi_command_execution` from process.rs: with a terminal
selector, delegate to the strategy table and accept its result whenever it
has at least two entries (program plus one argument); otherwise fall back to
the legacy path. -/
def prepare_multi_command_execution (win : Bool) (launch_commands : String)
    (working_dir : Option String) (terminal_type : Option String) :
    Except String (String × List String) :=
  match terminal_type with
  | some t =>
    match get_terminal_command t launch_commands working_dir with
    | a :: b :: rest => .ok (a, b :: rest)
    | _ => legacyPrepare win launch_commands working_dir
  | none => legacyPrepare win launch_commands working_dir

/-! ## Process Supervisor data model (process.rs) -/

/-- `ProcessInfo` from process.rs: the registry record for one running
process.  On Unix `pgid` is the process-group id assigned to the child
(equal to its pid); on Windows it is `none`. -/
structure ProcessInfo where
  pid : Nat
  started_at : String
  pgid : Option Int
deriving DecidableEq, Repr

/-- `ProcessResult` from process.rs: the structured result value returned by
every supervisor operation. -/
structure ProcessResult where
  success : Bool
  message : String
  pid : Option Nat
  error : Option String
deriving DecidableEq, Repr

/-- The UI notifications emitted by the supervisor (`app_handle.emit`),
tagged by event name; payload timestamps are omitted. -/
inductive Event where
  | processStarted (appId : String) (pid : Option Nat)
  | processError (appId : String) (error : String)
  | processOutput (appId : String) (stream content : String)
  | processStopped (appId : String) (pid : Nat)
deriving DecidableEq, Repr

/-- The supervisor registry: the `HashMap<String, ProcessInfo>` behind the
mutex, modelled as an association list with unique keys. -/
abbrev Registry := List (String × ProcessInfo)

/-- `HashMap::get`/`remove` lookup by app id. -/
def lookupReg (reg : Registry) (id : String) : Option ProcessInfo :=
  match reg.find? (fun e => e.1 = id) with
  | some e => some e.2
  | none => none

/-- `HashMap::contains_key`. -/
def containsKey (reg : Registry) (id : String) : Bool :=
  reg.any (fun e => e.1 = id)

/-- `HashMap::remove`: drop the binding for `id`. -/
def eraseKey (reg : Registry) (id : String) : Registry :=
  reg.filter (fun e => !(e.1 = id))

/-- `HashMap::insert`: bind `id`, replacing any previous binding. -/
def insertReg (reg : Registry) (id : String) (info : ProcessInfo) : Registry :=
  (id, info) :: eraseKey reg id

/-! ## `start_app_process` (process.rs) -/

/-- The reason a spawn attempt failed, classified as in process.rs
lines 646-656 (`std::io::ErrorKind`). -/
inductive SpawnErrKind where
  | notFound
  | permissionDenied
  | other (msg : String)
deriving DecidableEq, Repr

/-- Oracles for the external effects consulted by `start_app_process`:
the browser opener, the filesystem, the spawn syscall, and the clock. -/
structure StartEnv where
  browserOpen : String → Except String String
  dirExists : String → Bool
  isDir : String → Bool
  spawn : String → List String → Except SpawnErrKind Nat
  now : String

/-- `validate_directory` from `platform_utils` in process.rs: normalize,
then (unless the original path is a POSIX path on a Windows host, which is
trusted as a WSL path) check existence and directory-ness. -/
def validate_directory (win : Bool) (env : StartEnv) (path : String) :
    Except String String :=
  match normalize_path win path with
  | .error e => .error e
  | .ok normalized =>
    if win && List.isPrefixOf ['/'] path.data then
      .ok normalized
    else if !env.dirExists normalized then
      .error ("Directory does not exist: " ++ normalized)
    else if !env.isDir normalized then
      .error ("Path is not a directory: " ++ normalized)
    else
      .ok normalized

/-- The arguments of the `start_app_process` command.  `environment_variables`
and the browser options only configure the spawned child and the post-spawn
asynchronous browser task; they do not influence the synchronous outcome
modelled here. -/
structure StartArgs where
  app_id : String
  launch_commands : Option String
  working_directory : Option String
  environment_variables : List (String × String)
  url : Option String
  auto_launch_browser : Option Bool
  terminal_type : Option String

/-- The synchronous outcome of one `start_app_process` call: the returned
result value, the registry afterwards, the spawn call made (if any), and the
events emitted before returning. -/
structure StartOutcome where
  result : ProcessResult
  registry : Registry
  spawned : Option (String × List String)
  events : List Event
deriving Repr

/-- Is this request a bookmark request (process.rs line 432):
`launch_commands` absent or trimming to the empty string? -/
def isBookmarkRequest (launch_commands : Option String) : Bool :=
  match launch_commands with
  | none => true
  | some c => (trimChars c.data).isEmpty

/-- `start_app_process` from process.rs, as a pure function over the
registry and the effect oracles.  The concurrent output readers, the exit
monitor, and the asynchronous browser launch task spawned after a successful
start are outside the synchronous outcome modelled here. -/
def start_app_process (win : Bool) (env : StartEnv) (a : StartArgs)
    (reg : Registry) : StartOutcome :=
  if isBookmarkRequest a.launch_commands then
    match a.url with
    | some url =>
      match env.browserOpen url with
      | .ok _ =>
        { result := ⟨true, "Opened URL: " ++ url, none, none⟩,
          registry := reg, spawned := none,
          events := [.processStarted a.app_id none] }
      | .error e =>
        { result := ⟨false, e, none, some e⟩,
          registry := reg, spawned := none,
          events := [.processError a.app_id e] }
    | none =>
      { result := ⟨false, "Bookmark apps require a URL", none,
                   some "No URL provided for bookmark app"⟩,
        registry := reg, spawned := none, events := [] }
  else
    let launch_commands := a.launch_commands.getD ""
    if containsKey reg a.app_id then
      { result := ⟨false, "Process is already running", none,
                   some "Process already exists"⟩,
        registry := reg, spawned := none, events := [] }
    else
      match (match a.working_directory with
             | none => .ok none
             | some dir =>
               match validate_directory win env dir with
               | .ok normalized => .ok (some normalized)
               | .error _ =>
                 match normalize_path win dir with
                 | .ok normalized => .ok (some normalized)
                 | .error e =>
                   .error ("Failed to normalize working directory: " ++ e) :
             Except String (Option String)) with
      | .error error_msg =>
        { result := ⟨false, error_msg, none, some error_msg⟩,
          registry := reg, spawned := none,
          events := [.processError a.app_id error_msg] }
      | .ok normalized_working_dir =>
        match prepare_multi_command_execution win launch_commands
            normalized_working_dir a.terminal_type with
        | .error e =>
          let error_msg := "Failed to prepare launch commands: " ++ e
          { result := ⟨false, error_msg, none, some error_msg⟩,
            registry := reg, spawned := none,
            events := [.processError a.app_id error_msg] }
        | .ok (program, args) =>
          let dirMissing :=
            match normalized_working_dir with
            | some dir =>
              if !(win && program = "wsl.exe") then
                let path_exists :=
                  if win && List.isPrefixOf ['/'] dir.data then true
                  else env.dirExists dir
                if !path_exists then some dir else none
              else none
            | none => none
          match dirMissing with
          | some dir =>
            let error_msg := "Working directory does not exist: " ++ dir
            { result := ⟨false, error_msg, none, some error_msg⟩,
              registry := reg, spawned := none,
              events := [.processError a.app_id error_msg] }
          | none =>
            match env.spawn program args with
            | .error kind =>
              let detailed_error :=
                match kind with
                | .notFound =>
                  "Command not found: \x27" ++ program ++
                  "\x27. Make sure the command exists and is in your PATH."
                | .permissionDenied =>
                  "Permission denied when trying to execute: \x27" ++ program ++ "\x27"
                | .other msg => "Failed to start process: " ++ msg
              { result := ⟨false, detailed_error, none, some detailed_error⟩,
                registry := reg, spawned := some (program, args),
                events := [.processError a.app_id detailed_error] }
            | .ok pid =>
              let pgid : Option Int := if win then none else some pid
              let info : ProcessInfo := ⟨pid, env.now, pgid⟩
              { result := ⟨true, "Process started successfully", some pid, none⟩,
                registry := insertReg reg a.app_id info,
                spawned := some (program, args),
                events := [.processStarted a.app_id (some pid)] }

/-! ## Termination ladder and `stop_app_process` (process.rs) -/

/-- POSIX signals used by the escalation ladders. -/
inductive Sig where
  | sigint
  | sigterm
  | sigkill
deriving DecidableEq, Repr

/-- Display name of a signal, as used in the error strings. -/
def sigName : Sig → String
  | .sigint => "SIGINT"
  | .sigterm => "SIGTERM"
  | .sigkill => "SIGKILL"

/-- Bounded wait after each `stop_app_process` ladder step (process.rs
line 1072): up to 2 s after SIGINT and SIGTERM, 1 s after SIGKILL. -/
def stopTimeoutMs : Sig → Nat
  | .sigkill => 1000
  | _ => 2000

/-- Bounded wait after each `kill_all_processes` ladder step (process.rs
line 1337): up to 1.5 s after SIGTERM, 1 s after SIGKILL. -/
def killAllTimeoutMs : Sig → Nat
  | .sigkill => 1000
  | _ => 1500

/-- Oracles for one termination attempt on one process.  `sendErr s` is the
OS error message if delivering signal `s` to the process group fails;
`waitGone s = some t` means the bounded-wait poll after sending `s` observes
the process gone `t` milliseconds into that wait, while `none` means the
wait times out with the process still alive. -/
structure StopEnv where
  sendErr : Sig → Option String
  waitGone : Sig → Option Nat

/-- The outcome of an escalation ladder: whether some step observed the
process gone, which step it was, the total milliseconds waited, and the last
signal-delivery error observed. -/
structure LadderOutcome where
  success : Bool
  succeededStep : Option Sig
  elapsedMs : Nat
  lastError : Option String
deriving Repr

/-- The escalation ladder of process.rs (lines 1053-1077): send each signal
in turn, record delivery failures, and stop at the first step whose bounded
wait observes the process gone.  A step that times out contributes its whole
timeout to the elapsed total; the succeeding step contributes the time at
which the poll saw the process disappear. -/
def runLadder (env : StopEnv) (tmo : Sig → Nat) :
    List Sig → Nat → Option String → LadderOutcome
  | [], elapsed, lastErr => ⟨false, none, elapsed, lastErr⟩
  | s :: rest, elapsed, lastErr =>
    let lastErr' :=
      match env.sendErr s with
      | some err => some (sigName s ++ " to group failed: " ++ err)
      | none => lastErr
    match env.waitGone s with
    | some t => ⟨true, some s, elapsed + t, lastErr'⟩
    | none => runLadder env tmo rest (elapsed + tmo s) lastErr'

/-- The signal order of the `stop_app_process` ladder. -/
def stopSignals : List Sig := [.sigint, .sigterm, .sigkill]

/-- The outcome of one `stop_app_process` call: result value, registry
afterwards, events emitted. -/
structure StopOutcome where
  result : ProcessResult
  registry : Registry
  events : List Event
deriving Repr

/-- `stop_app_process` from process.rs, as a pure function.  The record is
popped from the registry before the ladder runs, so the registry no longer
holds the id afterwards even when every ladder step fails.  The POSIX
(`#[cfg(unix)]`) three-signal ladder is the one modelled; the Windows
taskkill branch shares the pop/result/event structure.  The function
mirrors the Rust command returning `Ok` on every path (failures are encoded
in the `ProcessResult`). -/
def stop_app_process (env : StopEnv) (app_id : String) (reg : Registry) :
    Except String StopOutcome :=
  match lookupReg reg app_id with
  | none =>
    .ok { result := ⟨false, "Process not found or not running", none,
                     some "Process not found"⟩,
          registry := reg, events := [] }
  | some info =>
    let reg' := eraseKey reg app_id
    let lad := runLadder env stopTimeoutMs stopSignals 0 none
    let result :=
      if lad.success then
        (⟨true, "Process stopped successfully", some info.pid, none⟩ : ProcessResult)
      else
        let error_msg := lad.lastError.getD "Failed to stop process within timeout"
        ⟨false, error_msg, some info.pid, some error_msg⟩
    .ok { result := result, registry := reg',
          events := [.processStopped app_id info.pid,
                     .processOutput app_id "stdout" "OddLauncher: Process stopped"] }

/-! ## `kill_all_processes` (process.rs) -/

/-- Oracles for `kill_all_processes`: the per-app signal and wait outcomes. -/
structure KillAllEnv where
  perApp : String → StopEnv

/-- Does the two-tier `kill_all_processes` ladder stop the given app:
some step (SIGTERM then SIGKILL) has its bounded wait observe the process
gone. -/
def killAllStops (env : KillAllEnv) (app_id : String) : Bool :=
  ((env.perApp app_id).waitGone .sigterm).isSome
    || ((env.perApp app_id).waitGone .sigkill).isSome

/-- The per-record loop of `kill_all_processes` (lines 1328-1374): apply the
two-tier POSIX ladder (SIGTERM with a 1500 ms wait, then SIGKILL with a
1000 ms wait) to each drained record, tally killed/failed, and emit a
process-stopped event for each record whose ladder succeeded. -/
def killAllGo (env : KillAllEnv) :
    List (String × ProcessInfo) → Nat → Nat → List Event →
    Nat × Nat × List Event
  | [], killed, failed, events => (killed, failed, events)
  | (app_id, info) :: rest, killed, failed, events =>
    let lad := runLadder (env.perApp app_id) killAllTimeoutMs [.sigterm, .sigkill] 0 none
    if lad.success then
      killAllGo env rest (killed + 1) failed
        (events ++ [.processStopped app_id info.pid])
    else
      killAllGo env rest killed (failed + 1) events

/-- `kill_all_processes` from process.rs: drain the whole registry under the
lock, run the two-tier ladder on each drained record, and report aggregate
counts.  The registry is left empty regardless of per-process outcomes. -/
def kill_all_processes (env : KillAllEnv) (reg : Registry) :
    Except String (ProcessResult × Registry × List Event) :=
  let processes_to_kill := reg
  match killAllGo env processes_to_kill 0 0 [] with
  | (killed_count, failed_count, events) =>
    .ok (⟨failed_count == 0,
          "Killed " ++ toString killed_count ++ " processes, "
            ++ toString failed_count ++ " failed",
          none,
          if failed_count > 0 then
            some (toString failed_count ++ " processes failed to stop")
          else none⟩,
         [], events)

/-! ## Readiness Poller (browser.rs) -/

/-- The outcome of one HTTP probe of the target URL: a success-status
response, a non-success-status response, or a transport error. -/
inductive ProbeOutcome where
  | success
  | httpFailure (status : Nat)
  | transportError (msg : String)
deriving DecidableEq, Repr

/-- `check_port_ready` from browser.rs: `Ok(true)` on a success-status
response and `Ok(false)` both on a non-success status and on a transport
error — a probe never returns `Err`. -/
def check_port_ready (o : ProbeOutcome) : Except String Bool :=
  match o with
  | .success => .ok true
  | .httpFailure _ => .ok false
  | .transportError _ => .ok false

/-- The polling loop of `wait_for_port_ready`: attempt `k` happens at
elapsed time `500 * k` ms (probes are modelled as instantaneous, and the
code sleeps 500 ms between attempts); the loop runs while the elapsed time
is below the timeout and returns `Ok(false)` once it is not.  Both a
`false` probe and an erroring probe retry. -/
def waitPollLoop (probes : Nat → ProbeOutcome) (timeout_ms k : Nat) :
    Except String Bool :=
  if _h : 500 * k < timeout_ms then
    match check_port_ready (probes k) with
    | .ok true => .ok true
    | .ok false => waitPollLoop probes timeout_ms (k + 1)
    | .error _ => waitPollLoop probes timeout_ms (k + 1)
  else
    .ok false
termination_by timeout_ms - 500 * k
decreasing_by
  all_goals omega

/-- `wait_for_port_ready` from browser.rs: poll the URL every 500 ms until a
probe succeeds or `timeout_seconds` elapse; returns a boolean result value,
never an error. -/
def wait_for_port_ready (probes : Nat → ProbeOutcome) (timeout_seconds : Nat) :
    Except String Bool :=
  waitPollLoop probes (1000 * timeout_seconds) 0

/-! ## Concrete fixtures used by closed instance checks -/

/-- A sample registry record. -/
def sampleInfo : ProcessInfo := ⟨42, "2024-01-01T00:00:00Z", some 42⟩

/-- A sample registry holding one running process. -/
def sampleReg : Registry := [("app1", sampleInfo)]

/-- A benign effect environment: the browser opens, directories exist,
spawning succeeds with pid 7. -/
def sampleStartEnv : StartEnv :=
  ⟨fun _ => .ok "opened", fun _ => true, fun _ => true, fun _ _ => .ok 7,
   "2024-01-01T00:00:00Z"⟩

/-- A process that survives SIGINT and SIGTERM but dies 500 ms into the
SIGKILL wait; signal delivery never fails. -/
def killOnSigkillEnv : StopEnv :=
  ⟨fun _ => none, fun s => match s with | .sigkill => some 500 | _ => none⟩

/-- A process that dies immediately on the first (SIGINT) step. -/
def diesOnSigintEnv : StopEnv :=
  ⟨fun _ => none, fun s => match s with | .sigint => some 0 | _ => none⟩

/-- A URL that never responds: every probe is a transport error. -/
def neverReadyProbes : Nat → ProbeOutcome :=
  fun _ => .transportError "connection refused"

/-! ## Helper lemmas: splitting, trimming, joining -/

theorem splitOnPred_ne_nil (p : Char → Bool) (l : List Char) :
    splitOnPred p l ≠ [] := by
  cases l with
  | nil => simp [splitOnPred]
  | cons c rest =>
    simp only [splitOnPred]
    rcases h : splitOnPred p rest with _ | ⟨q, qs⟩
    · simp
    · by_cases hc : p c <;> simp [hc]

theorem splitOnPred_cons_eq (p : Char → Bool) (x : Char) (rest : List Char)
    (q : List Char) (qs : List (List Char)) (h : splitOnPred p rest = q :: qs) :
    splitOnPred p (x :: rest)
      = if p x then [] :: q :: qs else (x :: q) :: qs := by
  simp only [splitOnPred, h]

theorem mem_splitOnPred_not_sep (p : Char → Bool) :
    ∀ (l : List Char), ∀ part ∈ splitOnPred p l, ∀ c ∈ part, p c = false := by
  intro l
  induction l with
  | nil =>
    intro part hp c hc
    simp [splitOnPred] at hp
    subst hp
    simp at hc
  | cons x rest ih =>
    intro part hp c hc
    rcases h : splitOnPred p rest with _ | ⟨q, qs⟩
    · exact absurd h (splitOnPred_ne_nil p rest)
    · rw [splitOnPred_cons_eq p x rest q qs h] at hp
      by_cases hx : p x
      · rw [if_pos hx] at hp
        rcases List.mem_cons.mp hp with hp1 | hp1
        · subst hp1; simp at hc
        · exact ih part (h ▸ hp1) c hc
      · rw [if_neg hx] at hp
        rcases List.mem_cons.mp hp with hp1 | hp1
        · subst hp1
          rcases List.mem_cons.mp hc with hcx | hcq
          · subst hcx; simpa using hx
          · exact ih q (h ▸ List.mem_cons_self _ _) c hcq
        · exact ih part (h ▸ List.mem_cons_of_mem _ hp1) c hc

theorem mem_splitOnPred_of_mem (p : Char → Bool) :
    ∀ (l : List Char) (c : Char), c ∈ l → p c = false →
      ∃ part ∈ splitOnPred p l, c ∈ part := by
  intro l
  induction l with
  | nil => intro c hc; simp at hc
  | cons x rest ih =>
    intro c hc hpc
    rcases h : splitOnPred p rest with _ | ⟨q, qs⟩
    · exact absurd h (splitOnPred_ne_nil p rest)
    · rw [splitOnPred_cons_eq p x rest q qs h]
      rcases List.mem_cons.mp hc with hcx | hcr
      · subst hcx
        rw [if_neg (by simp [hpc])]
        exact ⟨c :: q, List.mem_cons_self _ _, List.mem_cons_self _ _⟩
      · rcases ih c hcr hpc with ⟨part, hpart, hcp⟩
        rw [h] at hpart
        by_cases hx : p x
        · rw [if_pos hx]
          exact ⟨part, List.mem_cons_of_mem _ hpart, hcp⟩
        · rw [if_neg hx]
          rcases List.mem_cons.mp hpart with h1 | h1
          · exact ⟨x :: q, List.mem_cons_self _ _, h1 ▸ List.mem_cons_of_mem _ hcp⟩
          · exact ⟨part, List.mem_cons_of_mem _ h1, hcp⟩

theorem joinSlash_mem (parts : List (List Char)) (c : Char) :
    c ∈ joinSlash parts → c = '/' ∨ ∃ part ∈ parts, c ∈ part := by
  induction parts with
  | nil => intro h; simp [joinSlash] at h
  | cons p ps ih =>
    intro h
    cases ps with
    | nil =>
      simp only [joinSlash] at h
      exact Or.inr ⟨p, List.mem_cons_self _ _, h⟩
    | cons p2 ps2 =>
      simp only [joinSlash] at h
      rcases List.mem_append.mp h with h1 | h1
      · exact Or.inr ⟨p, List.mem_cons_self _ _, h1⟩
      · rcases List.mem_cons.mp h1 with h2 | h2
        · exact Or.inl h2
        · rcases ih h2 with h3 | ⟨part, hp, hc⟩
          · exact Or.inl h3
          · exact Or.inr ⟨part, List.mem_cons_of_mem _ hp, hc⟩

theorem trimChars_eq_nil_of_all_ws (l : List Char)
    (h : ∀ x ∈ l, isRustWhitespace x = true) : trimChars l = [] := by
  unfold trimChars
  have h1 : l.dropWhile isRustWhitespace = [] := List.dropWhile_eq_nil_iff.mpr h
  rw [h1]
  simp

theorem exists_not_ws_of_trimChars_ne_nil (l : List Char)
    (h : trimChars l ≠ []) : ∃ x ∈ l, isRustWhitespace x = false := by
  by_contra hc
  push_neg at hc
  exact h (trimChars_eq_nil_of_all_ws l (fun x hx => by
    have := hc x hx
    simpa using this))

theorem dropWhile_exists_not (q : Char → Bool) (l : List Char)
    (h : ∃ x ∈ l, q x = false) : ∃ x ∈ l.dropWhile q, q x = false := by
  induction l with
  | nil => simp at h
  | cons c rest ih =>
    rcases h with ⟨x, hx, hqx⟩
    by_cases hc : q c
    · rcases List.mem_cons.mp hx with h1 | h1
      · subst h1; rw [hc] at hqx; simp at hqx
      · rw [List.dropWhile_cons_of_pos hc]
        exact ih ⟨x, h1, hqx⟩
    · rw [List.dropWhile_cons_of_neg hc]
      exact ⟨x, hx, hqx⟩

theorem trimChars_ne_nil_of_exists (l : List Char)
    (h : ∃ x ∈ l, isRustWhitespace x = false) : trimChars l ≠ [] := by
  unfold trimChars
  rcases dropWhile_exists_not _ l h with ⟨x, hx, hqx⟩
  have hx' : x ∈ (l.dropWhile isRustWhitespace).reverse := List.mem_reverse.mpr hx
  rcases dropWhile_exists_not _ _ ⟨x, hx', hqx⟩ with ⟨y, hy, _⟩
  intro hcon
  rw [List.reverse_eq_nil_iff] at hcon
  rw [hcon] at hy
  simp at hy

theorem cmdsOf_ne_nil (s : String) (h : trimChars s.data ≠ []) :
    cmdsOf s ≠ [] := by
  rcases exists_not_ws_of_trimChars_ne_nil _ h with ⟨x, hx, hqx⟩
  have hxn : x ≠ '\n' := by
    intro hxe
    subst hxe
    simp [isRustWhitespace] at hqx
  have hxn' : (fun c => c = '\n' : Char → Bool) x = false := by
    simp [hxn]
  rcases mem_splitOnPred_of_mem (fun c => c = '\n') s.data x hx hxn' with ⟨part, hpart, hxp⟩
  have htrim : trimChars part ≠ [] := trimChars_ne_nil_of_exists part ⟨x, hxp, hqx⟩
  unfold cmdsOf
  intro hcon
  rw [List.map_eq_nil_iff, List.filter_eq_nil_iff] at hcon
  have hmem : trimChars part ∈ (splitOnPred (fun c => c = '\n') s.data).map trimChars :=
    List.mem_map.mpr ⟨part, hpart, rfl⟩
  have := hcon _ hmem
  simp [List.isEmpty_iff] at this
  exact htrim this

theorem joinNL_cons_of_ne (l : String) (ls : List String) (h : ls ≠ []) :
    joinNL (l :: ls) = l ++ "\n" ++ joinNL ls := by
  cases ls with
  | nil => exact absurd rfl h
  | cons a as => rfl

theorem joinNL_suffix (ls : List String) (c : String) :
    c.data <:+ (joinNL (ls ++ [c])).data := by
  induction ls with
  | nil => simp [joinNL]
  | cons l ls ih =>
    have hne : ls ++ [c] ≠ [] := by simp
    rw [List.cons_append, joinNL_cons_of_ne l _ hne]
    rcases ih with ⟨t, ht⟩
    refine ⟨(l ++ "\n").data ++ t, ?_⟩
    rw [List.append_assoc, ht]
    simp [String.data_append]

theorem joinNL_infix_of_mem (ls : List String) (l : String) (h : l ∈ ls) :
    l.data <:+: (joinNL ls).data := by
  induction ls with
  | nil => simp at h
  | cons a as ih =>
    rcases List.mem_cons.mp h with h1 | h1
    · subst h1
      cases as with
      | nil => simp [joinNL]
      | cons b bs =>
        rw [joinNL_cons_of_ne _ _ (by simp)]
        refine ⟨[], ("\n".data ++ (joinNL (b :: bs)).data), ?_⟩
        rw [String.data_append, String.data_append]
        simp [List.append_assoc]
    · have hinf := ih h1
      cases as with
      | nil => simp at h1
      | cons b bs =>
        rw [joinNL_cons_of_ne _ _ (by simp)]
        rcases hinf with ⟨s, t, hst⟩
        refine ⟨(a ++ "\n").data ++ s, t, ?_⟩
        simp only [String.data_append, List.append_assoc]
        rw [← hst]
        simp [List.append_assoc]

/-! ## Helper lemmas: the normalizer -/

theorem mem_of_isPrefixOf_mem {l q : List Char} {x : Char}
    (h : l.isPrefixOf q = true) (hx : x ∈ l) : x ∈ q := by
  rcases List.isPrefixOf_iff_prefix.mp h with ⟨t, ht⟩
  rw [← ht]
  exact List.mem_append_left _ hx

theorem char_contains_eq_false {l : List Char} {x : Char} (h : x ∉ l) :
    l.contains x = false := by
  cases hc : l.contains x
  · rfl
  · exact absurd (List.elem_iff.mp hc) h

theorem mem_of_contains_eq_true {l : List Char} {x : Char}
    (h : l.contains x = true) : x ∈ l := List.elem_iff.mp h

theorem convert_ok_shape {p q : List Char}
    (h : convert_wsl_network_path p = .ok q) :
    ∃ rest, q = '/' :: rest ∧ ∀ c ∈ rest, c ≠ '\\' ∧ c ≠ '/' ∨ c = '/' := by
  unfold convert_wsl_network_path at h
  dsimp only at h
  split at h
  · exact absurd h (by simp)
  · simp only [Except.ok.injEq] at h
    refine ⟨_, h.symm, ?_⟩
    intro c hc
    rcases joinSlash_mem _ c hc with h1 | ⟨part, hpart, hcp⟩
    · exact Or.inr h1
    · have hsub := List.drop_sublist 1 (splitOnPred
        (fun c => c = '\\' || c = '/') (removeAllSub wslPrefixFwd (removeAllSub wslPrefixBack p)))
      have hmem := hsub.subset hpart
      have := mem_splitOnPred_not_sep _ _ _ hmem c hcp
      simp at this
      exact Or.inl ⟨this.1, this.2⟩

theorem convert_ok_no_backslash {p q : List Char}
    (h : convert_wsl_network_path p = .ok q) : ∀ c ∈ q, c ≠ '\\' := by
  rcases convert_ok_shape h with ⟨rest, hq, hrest⟩
  subst hq
  intro c hc
  rcases List.mem_cons.mp hc with h1 | h1
  · subst h1; decide
  · rcases hrest c h1 with ⟨h2, _⟩ | h2
    · exact h2
    · subst h2; decide

theorem no_slash_of_map_win (p : List Char) :
    ∀ c ∈ p.map (fun c => if c = '/' then '\\' else c), c ≠ '/' := by
  intro c hc
  rcases List.mem_map.mp hc with ⟨c0, _, hc0⟩
  by_cases h0 : c0 = '/'
  · rw [if_pos h0] at hc0; subst hc0; decide
  · rw [if_neg h0] at hc0; subst hc0; exact h0

theorem no_backslash_of_map_posix (p : List Char) :
    ∀ c ∈ p.map (fun c => if c = '\\' then '/' else c), c ≠ '\\' := by
  intro c hc
  rcases List.mem_map.mp hc with ⟨c0, _, hc0⟩
  by_cases h0 : c0 = '\\'
  · rw [if_pos h0] at hc0; subst hc0; decide
  · rw [if_neg h0] at hc0; subst hc0; exact h0

theorem back_isPrefixOf_eq_false {q : List Char} (h : ∀ c ∈ q, c ≠ '\\') :
    wslPrefixBack.isPrefixOf q = false := by
  cases hc : wslPrefixBack.isPrefixOf q
  · rfl
  · have hmem : '\\' ∈ wslPrefixBack := by decide
    exact absurd rfl (h '\\' (mem_of_isPrefixOf_mem hc hmem))

theorem fwd_isPrefixOf_eq_false {q : List Char} (h : ∀ c ∈ q, c ≠ '/') :
    wslPrefixFwd.isPrefixOf q = false := by
  cases hc : wslPrefixFwd.isPrefixOf q
  · rfl
  · have hmem : '/' ∈ wslPrefixFwd := by decide
    exact absurd rfl (h '/' (mem_of_isPrefixOf_mem hc hmem))

theorem normalizeChars_ok_self_posix (q : List Char)
    (hb : wslPrefixBack.isPrefixOf q = false)
    (hf : wslPrefixFwd.isPrefixOf q = false)
    (hc : q.contains '\\' = false) :
    normalizeChars false q = .ok q := by
  unfold normalizeChars
  rw [hb, hf, hc]
  simp

theorem normalizeChars_ok_self_win (q : List Char)
    (hb : wslPrefixBack.isPrefixOf q = false)
    (hf : wslPrefixFwd.isPrefixOf q = false)
    (hc : (q.contains '/' && !q.contains '\\' && !(List.isPrefixOf ['/'] q)) = false) :
    normalizeChars true q = .ok q := by
  unfold normalizeChars
  rw [hb, hf, hc]
  simp

/-- Idempotence of the normalizer on every successful output that does not
itself begin with the forward-slash WSL network prefix. -/
theorem normalizeChars_idem (win : Bool) (p q : List Char)
    (h : normalizeChars win p = .ok q)
    (hq : wslPrefixFwd.isPrefixOf q = false) :
    normalizeChars win q = .ok q := by
  unfold normalizeChars at h
  by_cases hpre : (wslPrefixBack.isPrefixOf p || wslPrefixFwd.isPrefixOf p) = true
  · rw [if_pos hpre] at h
    have hnb := convert_ok_no_backslash h
    rcases convert_ok_shape h with ⟨rest, hqr, _⟩
    have hback : wslPrefixBack.isPrefixOf q = false := back_isPrefixOf_eq_false hnb
    have hnc : q.contains '\\' = false :=
      char_contains_eq_false (fun hm => hnb '\\' hm rfl)
    cases win
    · exact normalizeChars_ok_self_posix q hback hq hnc
    · refine normalizeChars_ok_self_win q hback hq ?_
      have hsl : List.isPrefixOf ['/'] q = true := by
        subst hqr
        simp [List.isPrefixOf]
      rw [hsl]
      simp
  · rw [if_neg hpre] at h
    have hpre' := hpre
    simp only [Bool.or_eq_true, not_or, Bool.not_eq_true] at hpre'
    obtain ⟨hpb, hpf⟩ := hpre'
    cases win
    · rw [if_neg (by simp)] at h
      by_cases hbs : p.contains '\\' = true
      · rw [if_pos hbs] at h
        simp only [Except.ok.injEq] at h
        subst h
        have hnb := no_backslash_of_map_posix p
        have hback := back_isPrefixOf_eq_false hnb
        have hnc : (p.map (fun c => if c = '\\' then '/' else c)).contains '\\' = false :=
          char_contains_eq_false (fun hm => hnb '\\' hm rfl)
        exact normalizeChars_ok_self_posix _ hback hq hnc
      · rw [if_neg hbs] at h
        simp only [Except.ok.injEq] at h
        subst h
        have hbs' : p.contains '\\' = false := by
          revert hbs
          cases p.contains '\\' <;> simp
        exact normalizeChars_ok_self_posix p hpb hpf hbs'
    · rw [if_pos rfl] at h
      by_cases hcond : (p.contains '/' && !p.contains '\\' && !(List.isPrefixOf ['/'] p)) = true
      · rw [if_pos hcond] at h
        simp only [Except.ok.injEq] at h
        subst h
        simp only [Bool.and_eq_true, Bool.not_eq_true] at hcond
        obtain ⟨⟨_, hnbs⟩, hnsl⟩ := hcond
        have hns := no_slash_of_map_win p
        have hfwd := fwd_isPrefixOf_eq_false hns
        have hnc : (p.map (fun c => if c = '/' then '\\' else c)).contains '/' = false :=
          char_contains_eq_false (fun hm => hns '/' hm rfl)
        have hback : wslPrefixBack.isPrefixOf
            (p.map (fun c => if c = '/' then '\\' else c)) = false := by
          cases hbp : wslPrefixBack.isPrefixOf (p.map (fun c => if c = '/' then '\\' else c))
          · rfl
          · exfalso
            have hbl : wslPrefixBack = '\\' :: "\\wsl.localhost\\".data := by decide
            rcases List.isPrefixOf_iff_prefix.mp hbp with ⟨t, ht⟩
            cases p with
            | nil =>
              rw [hbl] at ht
              simp at ht
            | cons p0 pr =>
              rw [hbl] at ht
              simp only [List.map_cons, List.cons_append, List.cons.injEq] at ht
              by_cases h0 : p0 = '/'
              · subst h0
                have hone : List.isPrefixOf ['/'] ('/' :: pr) = true := by
                  simp [List.isPrefixOf]
                rw [hone] at hnsl
                simp at hnsl
              · rw [if_neg h0] at ht
                have hmem : '\\' ∈ p0 :: pr := ht.1 ▸ List.mem_cons_self p0 pr
                have : (p0 :: pr).contains '\\' = true := List.elem_iff.mpr hmem
                rw [this] at hnbs
                simp at hnbs
        refine normalizeChars_ok_self_win _ hback hq ?_
        rw [hnc]
        simp
      · rw [if_neg hcond] at h
        simp only [Except.ok.injEq] at h
        subst h
        have hcond' : (p.contains '/' && !p.contains '\\' && !(List.isPrefixOf ['/'] p)) = false := by
          revert hcond
          cases (p.contains '/' && !p.contains '\\' && !(List.isPrefixOf ['/'] p)) <;> simp
        exact normalizeChars_ok_self_win p hpb hpf hcond'

/-! ## Helper lemmas: registry -/

theorem insertReg_keys_nodup (reg : Registry) (id : String) (info : ProcessInfo)
    (h : (reg.map Prod.fst).Nodup) :
    ((insertReg reg id info).map Prod.fst).Nodup := by
  unfold insertReg eraseKey
  simp only [List.map_cons]
  refine List.nodup_cons.mpr ⟨?_, ?_⟩
  · intro hm
    rcases List.mem_map.mp hm with ⟨e, he, hfe⟩
    have hpred := (List.mem_filter.mp he).2
    simp at hpred
    exact hpred hfe
  · exact List.Nodup.sublist (List.Sublist.map _ (List.filter_sublist reg)) h

theorem start_registry_cases (win : Bool) (env : StartEnv) (a : StartArgs)
    (reg : Registry) :
    (start_app_process win env a reg).registry = reg ∨
      ∃ info, (start_app_process win env a reg).registry = insertReg reg a.app_id info := by
  unfold start_app_process
  dsimp only
  repeat' split
  all_goals first
    | exact Or.inl rfl
    | exact Or.inr ⟨_, rfl⟩

/-! ## Helper lemmas: termination ladders -/

theorem runLadder_stop_find (env : StopEnv) :
    (runLadder env stopTimeoutMs stopSignals 0 none).succeededStep
        = stopSignals.find? (fun s => (env.waitGone s).isSome) ∧
      (runLadder env stopTimeoutMs stopSignals 0 none).success
        = stopSignals.any (fun s => (env.waitGone s).isSome) := by
  cases h1 : env.waitGone .sigint <;> cases h2 : env.waitGone .sigterm <;>
    cases h3 : env.waitGone .sigkill <;>
      simp [runLadder, stopSignals, h1, h2, h3, List.find?]

theorem runLadder_stop_kill_scenario (env : StopEnv) (t : Nat)
    (h1 : env.waitGone .sigint = none) (h2 : env.waitGone .sigterm = none)
    (h3 : env.waitGone .sigkill = some t) :
    (runLadder env stopTimeoutMs stopSignals 0 none).success = true ∧
      (runLadder env stopTimeoutMs stopSignals 0 none).succeededStep = some .sigkill ∧
      (runLadder env stopTimeoutMs stopSignals 0 none).elapsedMs = 2000 + 2000 + t := by
  simp [runLadder, stopSignals, h1, h2, h3, stopTimeoutMs]

theorem runLadder_two_tier_success (envS : StopEnv) (e0 : Nat) (le0 : Option String) :
    (runLadder envS killAllTimeoutMs [.sigterm, .sigkill] e0 le0).success
      = ((envS.waitGone .sigterm).isSome || (envS.waitGone .sigkill).isSome) := by
  cases h1 : envS.waitGone .sigterm <;> cases h2 : envS.waitGone .sigkill <;>
    simp [runLadder, h1, h2]

theorem killAllGo_spec (env : KillAllEnv) :
    ∀ (l : List (String × ProcessInfo)) (k f : Nat) (evs : List Event),
      killAllGo env l k f evs
        = (k + l.countP (fun e => killAllStops env e.1),
           f + l.countP (fun e => !killAllStops env e.1),
           evs ++ (l.filter (fun e => killAllStops env e.1)).map
             (fun e => Event.processStopped e.1 e.2.pid)) := by
  intro l
  induction l with
  | nil => intro k f evs; simp [killAllGo]
  | cons x rest ih =>
    intro k f evs
    obtain ⟨id, info⟩ := x
    have hsucc := runLadder_two_tier_success (env.perApp id) 0 none
    by_cases hs : killAllStops env id = true
    · have hl : (runLadder (env.perApp id) killAllTimeoutMs [.sigterm, .sigkill] 0 none).success = true := by
        rw [hsucc]; exact hs
      simp only [killAllGo, hl, if_true]
      rw [ih]
      rw [List.countP_cons_of_pos _ _ (by exact hs),
        List.countP_cons_of_neg _ _ (by simp [hs]),
        List.filter_cons_of_pos (by exact hs)]
      simp only [List.map_cons, List.append_assoc, List.singleton_append, Prod.mk.injEq,
        true_and, and_true]
      omega
    · have hs' : killAllStops env id = false := by
        revert hs; cases killAllStops env id <;> simp
      have hl : (runLadder (env.perApp id) killAllTimeoutMs [.sigterm, .sigkill] 0 none).success = false := by
        rw [hsucc]; exact hs'
      simp only [killAllGo, hl, Bool.false_eq_true, if_false]
      rw [ih]
      rw [List.countP_cons_of_neg _ _ (by simp [hs']),
        List.countP_cons_of_pos _ _ (by simp [hs']),
        List.filter_cons_of_neg (by simp [hs'])]
      simp only [Prod.mk.injEq, true_and, and_true]
      omega

/-! ## Helper lemmas: readiness poller -/

theorem waitPollLoop_isOk (probes : Nat → ProbeOutcome) (T : Nat) :
    ∀ k, ∃ b, waitPollLoop probes T k = .ok b := by
  have H : ∀ n k, T - 500 * k ≤ n → ∃ b, waitPollLoop probes T k = .ok b := by
    intro n
    induction n with
    | zero =>
      intro k hk
      unfold waitPollLoop
      rw [dif_neg (by omega)]
      exact ⟨false, rfl⟩
    | succ n ih =>
      intro k hk
      unfold waitPollLoop
      by_cases hlt : 500 * k < T
      · rw [dif_pos hlt]
        cases hp : check_port_ready (probes k) with
        | ok b =>
          cases b
          · simp only [hp]
            exact ih (k + 1) (by omega)
          · simp only [hp]
            exact ⟨true, rfl⟩
        | error e =>
          simp only [hp]
          exact ih (k + 1) (by omega)
      · rw [dif_neg hlt]
        exact ⟨false, rfl⟩
  intro k
  exact H _ k (Nat.le_refl _)

theorem waitPollLoop_true_iff (probes : Nat → ProbeOutcome) (T : Nat) :
    ∀ k, (waitPollLoop probes T k = .ok true
        ↔ ∃ j, k ≤ j ∧ 500 * j < T ∧ probes j = .success) := by
  have H : ∀ n k, T - 500 * k ≤ n →
      (waitPollLoop probes T k = .ok true
        ↔ ∃ j, k ≤ j ∧ 500 * j < T ∧ probes j = .success) := by
    intro n
    induction n with
    | zero =>
      intro k hk
      unfold waitPollLoop
      rw [dif_neg (by omega)]
      constructor
      · intro h; simp at h
      · rintro ⟨j, hj, hjT, _⟩
        omega
    | succ n ih =>
      intro k hk
      unfold waitPollLoop
      by_cases hlt : 500 * k < T
      · rw [dif_pos hlt]
        cases hp : probes k with
        | success =>
          simp only [check_port_ready]
          constructor
          · intro _
            exact ⟨k, Nat.le_refl _, hlt, hp⟩
          · intro _
            first | rfl | trivial
        | httpFailure s =>
          simp only [check_port_ready]
          rw [ih (k + 1) (by omega)]
          constructor
          · rintro ⟨j, hj, hjT, hjs⟩
            exact ⟨j, by omega, hjT, hjs⟩
          · rintro ⟨j, hj, hjT, hjs⟩
            refine ⟨j, ?_, hjT, hjs⟩
            rcases Nat.eq_or_lt_of_le hj with he | hlt2
            · exfalso; rw [← he] at hjs; rw [hp] at hjs; exact absurd hjs (by simp)
            · omega
        | transportError m =>
          simp only [check_port_ready]
          rw [ih (k + 1) (by omega)]
          constructor
          · rintro ⟨j, hj, hjT, hjs⟩
            exact ⟨j, by omega, hjT, hjs⟩
          · rintro ⟨j, hj, hjT, hjs⟩
            refine ⟨j, ?_, hjT, hjs⟩
            rcases Nat.eq_or_lt_of_le hj with he | hlt2
            · exfalso; rw [← he] at hjs; rw [hp] at hjs; exact absurd hjs (by simp)
            · omega
      · rw [dif_neg hlt]
        constructor
        · intro h; simp at h
        · rintro ⟨j, hj, hjT, _⟩
          omega
  intro k
  exact H _ k (Nat.le_refl _)

/-! ## Helper lemmas: composer error messages -/

theorem normalize_path_error_data {win : Bool} {p e : String}
    (h : normalize_path win p = .error e) :
    e.data = "Invalid WSL path format: ".data ++ p.data := by
  unfold normalize_path at h
  cases hn : normalizeChars win p.data with
  | ok r => rw [hn] at h; simp at h
  | error msg =>
    rw [hn] at h
    simp only [Except.error.injEq] at h
    subst h
    unfold normalizeChars at hn
    split at hn
    · unfold convert_wsl_network_path at hn
      dsimp only at hn
      split at hn
      · simp only [Except.error.injEq] at hn
        rw [← hn]
      · simp at hn
    · split at hn
      · split at hn <;> simp at hn
      · split at hn <;> simp at hn

theorem normalize_path_error_ne_novalid {win : Bool} {p e : String}
    (h : normalize_path win p = .error e) : e ≠ "No valid commands found" := by
  intro he
  have hd := normalize_path_error_data h
  rw [he] at hd
  have h1 := congrArg List.head? hd
  rw [List.head?_append] at h1
  have e1 : "No valid commands found".data.head? = some 'N' := by decide
  have e2 : "Invalid WSL path format: ".data.head? = some 'I' := by decide
  rw [e1, e2] at h1
  simp at h1

/-! ## Helper lemmas: strategy table -/

theorem get_terminal_command_length (t c : String) (d : Option String) :
    2 ≤ (get_terminal_command t c d).length := by
  unfold get_terminal_command
  repeat' split
  all_goals simp

theorem countP_not_sum {α : Type} (p : α → Bool) (l : List α) :
    l.countP p + l.countP (fun a => !p a) = l.length := by
  induction l with
  | nil => simp
  | cons x xs ih =>
    by_cases h : p x = true
    · rw [List.countP_cons_of_pos _ _ h, List.countP_cons_of_neg _ _ (by simp [h])]
      simp only [List.length_cons]
      omega
    · rw [List.countP_cons_of_neg _ _ h, List.countP_cons_of_pos _ _ (by simp [Bool.not_eq_true] at h; simp [h])]
      simp only [List.length_cons]
      omega

/-! ## The claims -/

/-- Claim C2: `stop_app_process` first removes the ProcessRecord from the
registry; a second stop for the same id returns a non-error result reporting
the process as not found; when the escalation ladder exhausts without the
process disappearing, stop reports failure but the record is already
removed; and in every termination case (ladder success or failure) stop
emits a process-stopped notification plus exactly one synthetic output
line. -/
theorem claim2_stop_pop_idempotent_events :
    ∀ (env : StopEnv) (app_id : String) (reg : Registry),
      (∃ out, stop_app_process env app_id reg = .ok out) ∧
      (lookupReg reg app_id = none →
        stop_app_process env app_id reg
          = .ok ⟨⟨false, "Process not found or not running", none,
                  some "Process not found"⟩, reg, []⟩) ∧
      (∀ info, lookupReg reg app_id = some info →
        ∃ res, stop_app_process env app_id reg
            = .ok ⟨res, eraseKey reg app_id,
                   [Event.processStopped app_id info.pid,
                    Event.processOutput app_id "stdout" "OddLauncher: Process stopped"]⟩ ∧
          res.success = (runLadder env stopTimeoutMs stopSignals 0 none).success) := by
  intro env app_id reg
  refine ⟨?_, ?_, ?_⟩
  · unfold stop_app_process
    cases lookupReg reg app_id
    · exact ⟨_, rfl⟩
    · exact ⟨_, rfl⟩
  · intro hnone
    unfold stop_app_process
    rw [hnone]
  · intro info hsome
    unfold stop_app_process
    rw [hsome]
    refine ⟨_, rfl, ?_⟩
    cases h : (runLadder env stopTimeoutMs stopSignals 0 none).success <;> simp

/-- Claim C2 witness: a concrete stop on a one-entry registry (process dies
on SIGINT) and a second stop on the emptied registry. -/
theorem claim2_witness :
    (∃ res, stop_app_process diesOnSigintEnv "app1" sampleReg
        = .ok ⟨res, eraseKey sampleReg "app1",
               [Event.processStopped "app1" sampleInfo.pid,
                Event.processOutput "app1" "stdout" "OddLauncher: Process stopped"]⟩ ∧
      res.success = (runLadder diesOnSigintEnv stopTimeoutMs stopSignals 0 none).success) ∧
    stop_app_process diesOnSigintEnv "app1" []
      = .ok ⟨⟨false, "Process not found or not running", none,
              some "Process not found"⟩, [], []⟩ :=
  ⟨(claim2_stop_pop_idempotent_events diesOnSigintEnv "app1" sampleReg).2.2
      sampleInfo rfl,
   (claim2_stop_pop_idempotent_events diesOnSigintEnv "app1" []).2.1 rfl⟩

/-- Claim C3: the termination ladder of `stop_app_process` executes SIGINT
(wait 2000 ms), SIGTERM (wait 2000 ms), SIGKILL (wait 1000 ms) in that
order, stopping at the first step whose wait observes the process gone; a
child surviving SIGINT and SIGTERM but dying on SIGKILL yields success with
the SIGKILL step as the succeeding one, only after the 2000 + 2000 ms waits
of the first two steps have elapsed. -/
theorem claim3_escalation_ladder :
    ∀ env : StopEnv,
      ((runLadder env stopTimeoutMs stopSignals 0 none).succeededStep
          = stopSignals.find? (fun s => (env.waitGone s).isSome)) ∧
      ((runLadder env stopTimeoutMs stopSignals 0 none).success
          = stopSignals.any (fun s => (env.waitGone s).isSome)) ∧
      (∀ t, env.waitGone .sigint = none → env.waitGone .sigterm = none →
          env.waitGone .sigkill = some t → t ≤ 1000 →
        (runLadder env stopTimeoutMs stopSignals 0 none).success = true ∧
        (runLadder env stopTimeoutMs stopSignals 0 none).succeededStep
            = some .sigkill ∧
        (runLadder env stopTimeoutMs stopSignals 0 none).elapsedMs
            = 2000 + 2000 + t ∧
        (runLadder env stopTimeoutMs stopSignals 0 none).elapsedMs ≤ 5000 ∧
        (∀ (reg : Registry) (app_id : String) (info : ProcessInfo),
          lookupReg reg app_id = some info →
          ∃ out, stop_app_process env app_id reg = .ok out ∧
            out.result.success = true ∧
            out.result.message = "Process stopped successfully")) := by
  intro env
  refine ⟨(runLadder_stop_find env).1, (runLadder_stop_find env).2, ?_⟩
  intro t h1 h2 h3 ht
  have hsc := runLadder_stop_kill_scenario env t h1 h2 h3
  refine ⟨hsc.1, hsc.2.1, hsc.2.2, by omega, ?_⟩
  intro reg app_id info hsome
  unfold stop_app_process
  rw [hsome]
  dsimp only
  rw [hsc.1, if_pos rfl]
  exact ⟨_, rfl, rfl, rfl⟩

/-- Claim C3 witness: the concrete SIGKILL-only scenario at `t = 500`. -/
theorem claim3_witness :
    (runLadder killOnSigkillEnv stopTimeoutMs stopSignals 0 none).success = true ∧
    (runLadder killOnSigkillEnv stopTimeoutMs stopSignals 0 none).succeededStep
        = some .sigkill ∧
    (runLadder killOnSigkillEnv stopTimeoutMs stopSignals 0 none).elapsedMs
        = 2000 + 2000 + 500 ∧
    (runLadder killOnSigkillEnv stopTimeoutMs stopSignals 0 none).elapsedMs ≤ 5000 ∧
    (∀ (reg : Registry) (app_id : String) (info : ProcessInfo),
      lookupReg reg app_id = some info →
      ∃ out, stop_app_process killOnSigkillEnv app_id reg = .ok out ∧
        out.result.success = true ∧
        out.result.message = "Process stopped successfully") :=
  (claim3_escalation_ladder killOnSigkillEnv).2.2 500 rfl rfl rfl (by decide)

/-- Claim C4: `kill_all_processes` drains the entire registry (no residual
entries, failed entries never re-inserted), applies the two-tier
SIGTERM-then-SIGKILL escalation to each drained record, returns
success iff no process failed to die, and reports killed/failed counts in
the message that sum to the number of registered processes. -/
theorem claim4_kill_all :
    ∀ (env : KillAllEnv) (reg : Registry),
      kill_all_processes env reg
        = .ok (⟨reg.countP (fun e => !killAllStops env e.1) == 0,
                "Killed " ++ toString (reg.countP (fun e => killAllStops env e.1))
                  ++ " processes, "
                  ++ toString (reg.countP (fun e => !killAllStops env e.1))
                  ++ " failed",
                none,
                if reg.countP (fun e => !killAllStops env e.1) > 0 then
                  some (toString (reg.countP (fun e => !killAllStops env e.1))
                    ++ " processes failed to stop")
                else none⟩,
               [],
               (reg.filter (fun e => killAllStops env e.1)).map
                 (fun e => Event.processStopped e.1 e.2.pid)) ∧
      reg.countP (fun e => killAllStops env e.1)
          + reg.countP (fun e => !killAllStops env e.1) = reg.length := by
  intro env reg
  constructor
  · unfold kill_all_processes
    dsimp only
    rw [killAllGo_spec env reg 0 0 []]
    simp
    rw [Nat.zero_add]
  · exact countP_not_sum _ reg

/-- Claim C8: `wait_for_port_ready` probes the URL every 500 ms, treats
failed and erroring probes alike as not-yet-ready (it never raises), returns
true exactly when some probe scheduled before the timeout succeeds, and
returns false — a result value, not an error — for a URL that never
responds. -/
theorem claim8_wait_for_port_ready :
    ∀ (probes : Nat → ProbeOutcome) (timeout_seconds : Nat),
      (∀ o, ∃ b, check_port_ready o = .ok b) ∧
      (∃ b, wait_for_port_ready probes timeout_seconds = .ok b) ∧
      (wait_for_port_ready probes timeout_seconds = .ok true
        ↔ ∃ j, 500 * j < 1000 * timeout_seconds ∧ probes j = .success) ∧
      ((∀ j, probes j ≠ .success) →
        wait_for_port_ready probes timeout_seconds = .ok false) := by
  intro probes ts
  have hiff : wait_for_port_ready probes ts = .ok true
      ↔ ∃ j, 500 * j < 1000 * ts ∧ probes j = .success := by
    unfold wait_for_port_ready
    rw [waitPollLoop_true_iff probes (1000 * ts) 0]
    constructor
    · rintro ⟨j, _, hjT, hjs⟩
      exact ⟨j, hjT, hjs⟩
    · rintro ⟨j, hjT, hjs⟩
      exact ⟨j, Nat.zero_le _, hjT, hjs⟩
  refine ⟨?_, ?_, hiff, ?_⟩
  · intro o
    cases o <;> exact ⟨_, rfl⟩
  · exact waitPollLoop_isOk probes _ 0
  · intro hfail
    rcases waitPollLoop_isOk probes (1000 * ts) 0 with ⟨b, hb⟩
    cases b
    · exact hb
    · exfalso
      rcases hiff.mp hb with ⟨j, _, hjs⟩
      exact hfail j hjs

/-- Claim C8 witness: a URL that never responds, with a 3-second timeout. -/
theorem claim8_witness :
    (∀ o, ∃ b, check_port_ready o = .ok b) ∧
    (∃ b, wait_for_port_ready neverReadyProbes 3 = .ok b) ∧
    (wait_for_port_ready neverReadyProbes 3 = .ok true
      ↔ ∃ j, 500 * j < 1000 * 3 ∧ neverReadyProbes j = .success) ∧
    wait_for_port_ready neverReadyProbes 3 = .ok false :=
  ⟨(claim8_wait_for_port_ready neverReadyProbes 3).1,
   (claim8_wait_for_port_ready neverReadyProbes 3).2.1,
   (claim8_wait_for_port_ready neverReadyProbes 3).2.2.1,
   (claim8_wait_for_port_ready neverReadyProbes 3).2.2.2
     (fun j => by unfold neverReadyProbes; intro hcon; cases hcon)⟩

/-- Claim C1 counterexample: with a ProcessRecord present for "app1", a
bookmark-type start call for that same id (no launch commands, URL present)
returns success and opens the browser — not the AlreadyRunning failure —
so a start call on an existing id does not always fail with
AlreadyRunning. -/
theorem claim1_counterexample :
    containsKey sampleReg "app1" = true ∧
    (start_app_process false sampleStartEnv
        ⟨"app1", none, none, [], some "http://localhost:3000", none, none⟩
        sampleReg).result.success = true ∧
    (start_app_process false sampleStartEnv
        ⟨"app1", none, none, [], some "http://localhost:3000", none, none⟩
        sampleReg).result.message = "Opened URL: http://localhost:3000" := by
  refine ⟨by decide, rfl, rfl⟩

/-- Claim C1 (amended): for process-type launch requests (launch commands
present and not trimming to empty), a start call on an id with an existing
ProcessRecord returns the AlreadyRunning failure with no side effects — no
spawn call, no insertion, no events, registry unchanged; moreover every
start call preserves key-uniqueness of the registry, so at most one
ProcessRecord exists per AppId at any instant.  Bookmark-type requests
bypass the registry check but never create a record. -/
theorem claim1_amended :
    (∀ (win : Bool) (env : StartEnv) (a : StartArgs) (reg : Registry) (c : String),
        a.launch_commands = some c → trimChars c.data ≠ [] →
        containsKey reg a.app_id = true →
        start_app_process win env a reg
          = { result := ⟨false, "Process is already running", none,
                         some "Process already exists"⟩,
              registry := reg, spawned := none, events := [] }) ∧
    (∀ (win : Bool) (env : StartEnv) (a : StartArgs) (reg : Registry),
        (reg.map Prod.fst).Nodup →
        ((start_app_process win env a reg).registry.map Prod.fst).Nodup) := by
  constructor
  · intro win env a reg c hlc hne hck
    have hbm : isBookmarkRequest a.launch_commands = false := by
      rw [hlc]
      unfold isBookmarkRequest
      dsimp only
      cases hh : (trimChars c.data).isEmpty
      · rfl
      · exact absurd (List.isEmpty_iff.mp hh) hne
    unfold start_app_process
    rw [hbm, if_neg (by simp)]
    dsimp only
    rw [hck, if_pos rfl]
  · intro win env a reg hnd
    rcases start_registry_cases win env a reg with h | ⟨info, h⟩
    · rw [h]; exact hnd
    · rw [h]; exact insertReg_keys_nodup reg a.app_id info hnd

/-- Claim C1 amended witness: a concrete process-type start on an id whose
record is already registered, and uniqueness preservation on the sample
registry. -/
theorem claim1_amended_witness :
    (start_app_process false sampleStartEnv
        ⟨"app1", some "npm start", none, [], none, none, none⟩ sampleReg
      = { result := ⟨false, "Process is already running", none,
                     some "Process already exists"⟩,
          registry := sampleReg, spawned := none, events := [] }) ∧
    ((start_app_process false sampleStartEnv
        ⟨"app1", some "npm start", none, [], none, none, none⟩
        sampleReg).registry.map Prod.fst).Nodup :=
  ⟨claim1_amended.1 false sampleStartEnv
      ⟨"app1", some "npm start", none, [], none, none, none⟩ sampleReg
      "npm start" rfl (by decide) (by decide),
   claim1_amended.2 false sampleStartEnv
      ⟨"app1", some "npm start", none, [], none, none, none⟩ sampleReg
      (by decide)⟩

/-- Claim C5: a bookmark-type launch request (launch commands absent or
trimming to empty, with a URL) short-circuits to the browser launcher: the
registry is unchanged (no ProcessRecord is ever created), the spawn path is
never reached, no pid is reported, and the result mirrors the browser
opener outcome. -/
theorem claim5_bookmark_short_circuit :
    ∀ (win : Bool) (env : StartEnv) (a : StartArgs) (reg : Registry) (u : String),
      (a.launch_commands = none ∨
        ∃ c, a.launch_commands = some c ∧ trimChars c.data = []) →
      a.url = some u →
      (start_app_process win env a reg).registry = reg ∧
      (start_app_process win env a reg).spawned = none ∧
      (start_app_process win env a reg).result.pid = none ∧
      (start_app_process win env a reg).result.success = (env.browserOpen u).isOk := by
  intro win env a reg u hbm hurl
  have hb : isBookmarkRequest a.launch_commands = true := by
    rcases hbm with h | ⟨c, hc, ht⟩
    · rw [h]; rfl
    · rw [hc]
      unfold isBookmarkRequest
      exact List.isEmpty_iff.mpr ht
  unfold start_app_process
  rw [hb, if_pos rfl, hurl]
  cases hbo : env.browserOpen u <;> simp [hbo, Except.isOk, Except.toBool]

/-- Claim C5 witness: a concrete bookmark start with a URL on the sample
registry. -/
theorem claim5_witness :
    (start_app_process false sampleStartEnv
        ⟨"app2", none, none, [], some "http://localhost:8080", none, none⟩
        sampleReg).registry = sampleReg ∧
    (start_app_process false sampleStartEnv
        ⟨"app2", none, none, [], some "http://localhost:8080", none, none⟩
        sampleReg).spawned = none ∧
    (start_app_process false sampleStartEnv
        ⟨"app2", none, none, [], some "http://localhost:8080", none, none⟩
        sampleReg).result.pid = none ∧
    (start_app_process false sampleStartEnv
        ⟨"app2", none, none, [], some "http://localhost:8080", none, none⟩
        sampleReg).result.success
      = (sampleStartEnv.browserOpen "http://localhost:8080").isOk :=
  claim5_bookmark_short_circuit false sampleStartEnv
    ⟨"app2", none, none, [], some "http://localhost:8080", none, none⟩
    sampleReg "http://localhost:8080" (Or.inl rfl) rfl

/-- Claim C9 counterexample: path normalization is not idempotent on every
input on which it succeeds.  On a POSIX host the WSL-network path
`\\wsl.localhost\a//wsl.localhost\b\c` normalizes successfully to
`//wsl.localhost/b/c`, and normalizing that output again strips a further
WSL prefix and yields the different path `/c`. -/
theorem claim9_counterexample :
    normalizeChars false "\\\\wsl.localhost\\a//wsl.localhost\\b\\c".data
        = .ok "//wsl.localhost/b/c".data ∧
    normalizeChars false "//wsl.localhost/b/c".data = .ok "/c".data ∧
    "//wsl.localhost/b/c".data ≠ "/c".data :=
  ⟨rfl, rfl, by decide⟩

/-- Claim C9 (amended): path normalization is idempotent on every input on
which it succeeds whose output does not itself begin with the
`//wsl.localhost/` network prefix — for such p, a second normalization
returns the first output unchanged, on both host platforms and for outputs
of WSL-prefix conversion and of either slash-rewriting branch. -/
theorem claim9_amended :
    ∀ (win : Bool) (p q : List Char),
      normalizeChars win p = .ok q →
      wslPrefixFwd.isPrefixOf q = false →
      normalizeChars win q = .ok q :=
  normalizeChars_idem

/-- Claim C9 amended witness: a backslash path on a POSIX host. -/
theorem claim9_amended_witness :
    normalizeChars false "some\\dir".data = .ok "some/dir".data ∧
    wslPrefixFwd.isPrefixOf "some/dir".data = false ∧
    normalizeChars false "some/dir".data = .ok "some/dir".data :=
  ⟨rfl, by decide,
   claim9_amended false "some\\dir".data "some/dir".data rfl (by decide)⟩

/-- Claim C7: for every launch-command string with two or more trimmed
non-empty lines, composed without a selector on a POSIX host (with a
working directory that normalizes successfully, when present), composition
succeeds with program `bash` and a single `-c` script argument whose lines
contain `set -e` and end with, for each input command in input order, one
echo trace line immediately followed by that command. -/
theorem claim7_unix_multiline_script :
    ∀ (lc : String) (d : Option String),
      2 ≤ (cmdsOf lc).length →
      (∀ x, d = some x → ∃ n, normalize_path false x = .ok n) →
      ∃ lines, prepare_multi_command_execution false lc d none
          = .ok ("bash", ["-c", joinNL lines]) ∧
        "set -e" ∈ lines ∧
        ∃ pre, lines = pre
          ++ (cmdsOf lc).enum.flatMap (fun pr => [traceLine pr.1 pr.2, pr.2]) := by
  intro lc d hlen hd
  unfold prepare_multi_command_execution legacyPrepare
  rcases hc : cmdsOf lc with _ | ⟨c1, _ | ⟨c2, cs⟩⟩
  · rw [hc] at hlen; simp at hlen
  · rw [hc] at hlen; simp at hlen
  · dsimp only
    rw [if_neg (by simp)]
    unfold prepare_unix_multi_command
    cases d with
    | none =>
      dsimp only
      refine ⟨_, rfl, ?_, ⟨_, rfl⟩⟩
      simp
    | some x =>
      rcases hd x rfl with ⟨n, hn⟩
      dsimp only
      rw [hn]
      dsimp only [Except.map]
      refine ⟨_, rfl, ?_, ⟨_, rfl⟩⟩
      simp

/-- Claim C7 witness: two commands, no working directory. -/
theorem claim7_witness :
    ∃ lines, prepare_multi_command_execution false "a\nb" none none
        = .ok ("bash", ["-c", joinNL lines]) ∧
      "set -e" ∈ lines ∧
      ∃ pre, lines = pre
        ++ (cmdsOf "a\nb").enum.flatMap (fun pr => [traceLine pr.1 pr.2, pr.2]) :=
  claim7_unix_multiline_script "a\nb" none (by decide)
    (fun x hx => by cases hx)

/-- Error-message separation: `prepare_wsl_command` never reports the
empty-command error of the composer. -/
theorem prepare_wsl_command_ne (win : Bool) (program : String)
    (args : List String) (d : Option String) :
    prepare_wsl_command win program args d ≠ .error "No valid commands found" := by
  unfold prepare_wsl_command
  cases d with
  | none => simp
  | some dir =>
    dsimp only
    cases hn : normalize_path win dir with
    | error e =>
      simp only [hn]
      intro hcon
      simp only [Except.error.injEq] at hcon
      exact normalize_path_error_ne_novalid hn hcon
    | ok n =>
      simp only [hn]
      simp

/-- Error-message separation: the single-command resolver never reports the
empty-command error of the composer. -/
theorem prepare_command_ne (win : Bool) (c : String) (d : Option String) :
    prepare_command win c d ≠ .error "No valid commands found" := by
  unfold prepare_command
  cases hsw : splitWhitespaceChars (trimChars c.data) with
  | nil =>
    intro hcon
    simp only [Except.error.injEq] at hcon
    exact absurd hcon (by decide)
  | cons prog rest =>
    dsimp only
    by_cases hw : (win && should_use_wsl d) = true
    · rw [if_pos hw]
      exact prepare_wsl_command_ne win _ _ d
    · rw [if_neg hw]
      simp

/-- Error-message separation: the POSIX multi-line script generator never
reports the empty-command error of the composer. -/
theorem prepare_unix_multi_ne (win : Bool) (cs : List String) (d : Option String) :
    prepare_unix_multi_command win cs d ≠ .error "No valid commands found" := by
  unfold prepare_unix_multi_command
  cases d with
  | none => simp
  | some dir =>
    dsimp only
    cases hn : normalize_path win dir with
    | error e =>
      simp only [hn, Except.map]
      intro hcon
      simp only [Except.error.injEq] at hcon
      exact normalize_path_error_ne_novalid hn hcon
    | ok n =>
      simp only [hn, Except.map]
      simp

/-- Error-message separation: the Windows multi-line script generator never
reports the empty-command error of the composer. -/
theorem prepare_windows_multi_ne (win : Bool) (cs : List String) (d : Option String) :
    prepare_windows_multi_command win cs d ≠ .error "No valid commands found" := by
  unfold prepare_windows_multi_command
  dsimp only
  by_cases hu : should_use_wsl d = true
  · rw [if_pos hu]
    cases d with
    | none => simp
    | some dir =>
      dsimp only
      cases hn : normalize_path win dir with
      | error e =>
        simp only [hn, Except.map]
        intro hcon
        simp only [Except.error.injEq] at hcon
        exact normalize_path_error_ne_novalid hn hcon
      | ok n =>
        simp only [hn, Except.map]
        simp
  · rw [if_neg hu]
    cases d with
    | none => simp
    | some dir =>
      dsimp only
      cases hn : normalize_path win dir with
      | error e =>
        simp only [hn, Except.map]
        intro hcon
        simp only [Except.error.injEq] at hcon
        exact normalize_path_error_ne_novalid hn hcon
      | ok n =>
        simp only [hn, Except.map]
        simp

/-- Error-message separation: with a non-empty (after trimming) command
string, the legacy composition path never reports the empty-command
error. -/
theorem legacyPrepare_ne (win : Bool) (lc : String) (d : Option String)
    (h : trimChars lc.data ≠ []) :
    legacyPrepare win lc d ≠ .error "No valid commands found" := by
  unfold legacyPrepare
  rcases hc : cmdsOf lc with _ | ⟨c1, _ | ⟨c2, cs⟩⟩
  · exact absurd hc (cmdsOf_ne_nil lc h)
  · exact prepare_command_ne win c1 d
  · dsimp only
    by_cases hwin : win = true
    · rw [if_pos hwin]
      exact prepare_windows_multi_ne win _ d
    · rw [if_neg hwin]
      exact prepare_unix_multi_ne win _ d

/-- Claim C10: through the public start interface the empty-command error
branch of the composer is unreachable: a command string that does not
trim to empty never produces "No valid commands found", and a command-less
request without a URL is classified as a bookmark before normalization or
composition runs, returning the bookmark failure with no ProcessRecord, no
spawn, no events, and the registry unchanged. -/
theorem claim10_empty_command_unreachable :
    (∀ (win : Bool) (lc : String) (d : Option String) (t : Option String),
        trimChars lc.data ≠ [] →
        prepare_multi_command_execution win lc d t
          ≠ .error "No valid commands found") ∧
    (∀ (win : Bool) (env : StartEnv) (a : StartArgs) (reg : Registry),
        (a.launch_commands = none ∨
          ∃ c, a.launch_commands = some c ∧ trimChars c.data = []) →
        a.url = none →
        start_app_process win env a reg
          = { result := ⟨false, "Bookmark apps require a URL", none,
                         some "No URL provided for bookmark app"⟩,
              registry := reg, spawned := none, events := [] }) := by
  constructor
  · intro win lc d t hne
    unfold prepare_multi_command_execution
    cases t with
    | none => exact legacyPrepare_ne win lc d hne
    | some tt =>
      cases hgtc : get_terminal_command tt lc d with
      | nil =>
        have hl := get_terminal_command_length tt lc d
        rw [hgtc] at hl
        simp at hl
      | cons a l =>
        cases l with
        | nil =>
          have hl := get_terminal_command_length tt lc d
          rw [hgtc] at hl
          simp at hl
        | cons b rest => simp [hgtc]
  · intro win env a reg hbm hurl
    have hb : isBookmarkRequest a.launch_commands = true := by
      rcases hbm with h | ⟨c, hc, ht⟩
      · rw [h]; rfl
      · rw [hc]
        unfold isBookmarkRequest
        exact List.isEmpty_iff.mpr ht
    unfold start_app_process
    rw [hb, if_pos rfl, hurl]

/-- Claim C10 witness: a whitespace-only command string is never the
empty-command error, and a concrete command-less request without a URL
returns the bookmark failure untouched. -/
theorem claim10_witness :
    prepare_multi_command_execution false "echo hi" none none
        ≠ .error "No valid commands found" ∧
    start_app_process false sampleStartEnv
        ⟨"app3", some "   \n  ", none, [], none, none, none⟩ sampleReg
      = { result := ⟨false, "Bookmark apps require a URL", none,
                     some "No URL provided for bookmark app"⟩,
          registry := sampleReg, spawned := none, events := [] } :=
  ⟨claim10_empty_command_unreachable.1 false "echo hi" none none (by decide),
   claim10_empty_command_unreachable.2 false sampleStartEnv
     ⟨"app3", some "   \n  ", none, [], none, none, none⟩ sampleReg
     (Or.inr ⟨"   \n  ", rfl, by decide⟩) rfl⟩

/-- Claim C6: with a supplied terminal selector, command composition
delegates entirely to the per-shell strategy table: the table always yields
a program plus at least one argument, so the length guard never triggers the
legacy fallback and the composer returns exactly the head and tail of the
table result;
the final argument embeds the full command text as a suffix and, when a
working directory is supplied, the working-directory change in the path
form of that branch (raw, Git-Bash, or WSL); unrecognized selector values use the
bash strategy. -/
theorem claim6_strategy_table :
    (∀ (t c : String) (d : Option String),
        2 ≤ (get_terminal_command t c d).length) ∧
    (∀ (win : Bool) (t lc : String) (d : Option String), ∃ a b rest,
        get_terminal_command t lc d = a :: b :: rest ∧
        prepare_multi_command_execution win lc d (some t) = .ok (a, b :: rest)) ∧
    (∀ (t c : String) (d : Option String),
        c.data <:+ ((get_terminal_command t c d).getLast?.getD "").data) ∧
    (∀ (t c dir : String), ∃ dd,
        (dd = dir ∨ dd = convert_to_unix_path dir ∨ dd = convert_to_wsl_path dir) ∧
        dd.data <:+: ((get_terminal_command t c (some dir)).getLast?.getD "").data) ∧
    (∀ (t c : String) (d : Option String),
        t ∉ (["cmd", "powershell", "pwsh", "gitbash", "wsl",
              "bash", "zsh", "fish", "sh"] : List String) →
        get_terminal_command t c d = get_terminal_command "bash" c d) := by
  refine ⟨get_terminal_command_length, ?_, ?_, ?_, ?_⟩
  · intro win t lc d
    rcases hgtc : get_terminal_command t lc d with _ | ⟨a, _ | ⟨b, rest⟩⟩
    · have hl := get_terminal_command_length t lc d
      rw [hgtc] at hl
      simp at hl
    · have hl := get_terminal_command_length t lc d
      rw [hgtc] at hl
      simp at hl
    · refine ⟨a, b, rest, rfl, ?_⟩
      unfold prepare_multi_command_execution
      simp [hgtc]
  · intro t c d
    unfold get_terminal_command
    repeat' split
    all_goals
      simp only [List.getLast?_cons_cons, List.getLast?_singleton, Option.getD_some]
    all_goals
      first
        | exact List.suffix_refl _
        | exact ⟨_, (String.data_append _ _).symm⟩
        | exact joinNL_suffix _ _
  · intro t c dir
    unfold get_terminal_command
    by_cases h1 : t = "cmd"
    · rw [if_pos h1]
      dsimp only
      refine ⟨dir, Or.inl rfl, ?_⟩
      simp only [List.getLast?_cons_cons, List.getLast?_singleton, Option.getD_some]
      refine ⟨"cd /d \"".data, ("\" && " ++ c).data, ?_⟩
      simp [String.data_append, List.append_assoc]
    · rw [if_neg h1]
      by_cases h2 : t = "powershell"
      · rw [if_pos h2]
        dsimp only
        refine ⟨dir, Or.inl rfl, ?_⟩
        simp only [List.getLast?_cons_cons, List.getLast?_singleton, Option.getD_some]
        refine ⟨"Set-Location -Path \x27".data, ("\x27; " ++ c).data, ?_⟩
        simp [String.data_append, List.append_assoc]
      · rw [if_neg h2]
        by_cases h3 : t = "pwsh"
        · rw [if_pos h3]
          dsimp only
          refine ⟨dir, Or.inl rfl, ?_⟩
          simp only [List.getLast?_cons_cons, List.getLast?_singleton, Option.getD_some]
          refine ⟨"Set-Location -Path \x27".data, ("\x27; " ++ c).data, ?_⟩
          simp [String.data_append, List.append_assoc]
        · rw [if_neg h3]
          by_cases h4 : t = "gitbash"
          · rw [if_pos h4]
            dsimp only
            refine ⟨convert_to_unix_path dir, Or.inr (Or.inl rfl), ?_⟩
            simp only [List.getLast?_cons_cons, List.getLast?_singleton, Option.getD_some]
            refine ⟨"cd \x27".data, ("\x27 && " ++ c).data, ?_⟩
            simp [String.data_append, List.append_assoc]
          · rw [if_neg h4]
            by_cases h5 : t = "wsl"
            · rw [if_pos h5]
              dsimp only
              refine ⟨convert_to_wsl_path dir, Or.inr (Or.inr rfl), ?_⟩
              simp only [List.getLast?_cons_cons, List.getLast?_singleton, Option.getD_some]
              have hline : ("cd \x27" ++ convert_to_wsl_path dir ++ "\x27")
                  ∈ wslStrategyHeader
                    ++ ["cd \x27" ++ convert_to_wsl_path dir ++ "\x27", ""]
                    ++ [c] := by
                simp
              have hinf := joinNL_infix_of_mem _ _ hline
              refine List.IsInfix.trans ?_ hinf
              refine ⟨"cd \x27".data, "\x27".data, ?_⟩
              simp [String.data_append, List.append_assoc]
            · rw [if_neg h5]
              dsimp only
              refine ⟨dir, Or.inl rfl, ?_⟩
              simp only [List.getLast?_cons_cons, List.getLast?_singleton, Option.getD_some]
              refine ⟨"cd \x27".data, ("\x27 && " ++ c).data, ?_⟩
              simp [String.data_append, List.append_assoc]
  · intro t c d hmem
    simp only [List.mem_cons, List.mem_singleton, not_or] at hmem
    obtain ⟨h1, h2, h3, h4, h5, h6, h7, h8, h9, -⟩ := hmem
    unfold get_terminal_command
    rw [if_neg h1, if_neg h2, if_neg h3, if_neg h4, if_neg h5,
      if_neg h7, if_neg h8, if_neg h9,
      if_neg (show ¬("bash" = "cmd") by decide),
      if_neg (show ¬("bash" = "powershell") by decide),
      if_neg (show ¬("bash" = "pwsh") by decide),
      if_neg (show ¬("bash" = "gitbash") by decide),
      if_neg (show ¬("bash" = "wsl") by decide),
      if_neg (show ¬("bash" = "zsh") by decide),
      if_neg (show ¬("bash" = "fish") by decide),
      if_neg (show ¬("bash" = "sh") by decide)]

/-- Claim C6 witness: the unrecognized selector "mystery" with a command and
a working directory. -/
theorem claim6_witness :
    (∃ a b rest,
        get_terminal_command "mystery" "npm start" (some "/srv/app") = a :: b :: rest ∧
        prepare_multi_command_execution false "npm start" (some "/srv/app")
            (some "mystery") = .ok (a, b :: rest)) ∧
    (∃ dd, (dd = "/srv/app" ∨ dd = convert_to_unix_path "/srv/app"
          ∨ dd = convert_to_wsl_path "/srv/app") ∧
        dd.data <:+:
          ((get_terminal_command "mystery" "npm start" (some "/srv/app")).getLast?.getD "").data) ∧
    get_terminal_command "mystery" "npm start" (some "/srv/app")
      = get_terminal_command "bash" "npm start" (some "/srv/app") :=
  ⟨claim6_strategy_table.2.1 false "mystery" "npm start" (some "/srv/app"),
   claim6_strategy_table.2.2.2.1 "mystery" "npm start" "/srv/app",
   claim6_strategy_table.2.2.2.2 "mystery" "npm start" (some "/srv/app")
     (by decide)⟩

end OddLauncher
